import Mathlib

/-!
Shallow embedding of the CFR (counterfactual regret minimization) core from
`src/cfr/`: the regret accumulator `InfoSet` (`src/cfr/info_set.py`) and the
training engine `CFRTrainer` (`src/cfr/cfr_trainer.py`), together with the
abstract game interface (`src/cfr/game_state.py`).

Modelling conventions:
* Python floats are modelled by an arbitrary linear ordered field `K`
  (instantiated at `ℚ` for executable runs and at `ℝ` where the code uses
  float exponentiation `**`, whose semantics is `Real.rpow`).
* Python dicts are modelled as insertion-ordered association lists
  (`List (κ × β)`) with `dlookup` / `dset`; `defaultdict(float)` reads that
  insert a missing key are modelled by `ddgetInsert`.
* Python code that can raise (`ZeroDivisionError` from `/`, `IndexError` /
  `KeyError` from indexing, games rejecting an action, `%` by zero) is
  modelled in the `Option` monad; `none` is an uncaught exception.
* Unbounded recursion (`CFRTrainer._cfr`) is modelled with explicit fuel;
  exhausted fuel also yields `none`.
-/

namespace CFR

/-- Modelled from the spec: the file `action.py` of this repository is not
under `src/` (only importers are).  Spec §3 describes `Action` as an opaque
immutable label (a string or small tagged value) with structural equality and
hashing, used only as a map key.  We model it as `String`. -/
abbrev Action := String

/-! ### Association-list model of Python dicts -/

/-- Python dict lookup: the value at the first (unique) matching key. -/
def dlookup {κ β : Type} [DecidableEq κ] : List (κ × β) → κ → Option β
  | [], _ => none
  | p :: rest, k => if p.1 = k then some p.2 else dlookup rest k

/-- Python dict membership test (`key in d`). -/
def dmem {κ β : Type} [DecidableEq κ] (m : List (κ × β)) (k : κ) : Bool :=
  (dlookup m k).isSome

/-- Python dict read with a default (`d.get(k, default)`), also the value a
`defaultdict` read returns. -/
def dgetD {κ β : Type} [DecidableEq κ] (m : List (κ × β)) (k : κ) (d : β) : β :=
  (dlookup m k).getD d

/-- Python dict write `d[k] = v`: replace in place if the key is present,
append at the end otherwise (insertion order preserved). -/
def dset {κ β : Type} [DecidableEq κ] : List (κ × β) → κ → β → List (κ × β)
  | [], k, v => [(k, v)]
  | p :: rest, k, v => if p.1 = k then (k, v) :: rest else p :: dset rest k v

/-- A `defaultdict` read `d[k]`: returns the stored value, and inserts the
default for a missing key as a side effect. -/
def ddgetInsert {κ β : Type} [DecidableEq κ] (m : List (κ × β)) (k : κ) (d : β) :
    β × List (κ × β) :=
  match dlookup m k with
  | some v => (v, m)
  | none => (d, m ++ [(k, d)])

/-- Python true division `x / y`, which raises `ZeroDivisionError` on `y = 0`. -/
def pydiv {K : Type} [LinearOrderedField K] (x y : K) : Option K :=
  if y = 0 then none else some (x / y)

/-- Python `a % b` on non-negative ints, which raises on `b = 0`. -/
def pymod (a b : ℕ) : Option ℕ :=
  if b = 0 then none else some (a % b)

/-- Python list read `l[i]` with wrap-around for negative indices;
`none` is an `IndexError`. -/
def pyIdx {β : Type} (l : List β) (i : Int) : Option β :=
  if 0 ≤ i then l.get? i.toNat
  else if (-i).toNat ≤ l.length then l.get? (l.length - (-i).toNat) else none

/-- Python list write `l[i] = v` with wrap-around for negative indices;
`none` is an `IndexError`. -/
def pySetIdx {β : Type} (l : List β) (i : Int) (v : β) : Option (List β) :=
  if 0 ≤ i then
    if i.toNat < l.length then some (l.set i.toNat v) else none
  else if (-i).toNat ≤ l.length then some (l.set (l.length - (-i).toNat) v) else none

/-! ### The regret accumulator (`src/cfr/info_set.py`) -/

/-- State of `class InfoSet` (src/cfr/info_set.py, lines 6-24): one
information set's cumulative regret, cumulative strategy weight and
diagnostic reach-probability counter. -/
structure InfoSet (K : Type) where
  key : String
  actions : List Action
  player : Int
  num_actions : ℕ
  regret_sum : List (Action × K)
  strategy_sum : List (Action × K)
  reach_probability_sum : K
  deriving DecidableEq

variable {K : Type} [LinearOrderedField K]

/-- `InfoSet.__init__` (info_set.py lines 12-24): the two `defaultdict`s are
eagerly seeded with `0.0` for every action of the fixed action list. -/
def mkInfoSet (key : String) (actions : List Action) (player : Int) : InfoSet K :=
  { key := key
    actions := actions
    player := player
    num_actions := actions.length
    regret_sum := actions.foldl (fun m a => dset m a 0) []
    strategy_sum := actions.foldl (fun m a => dset m a 0) []
    reach_probability_sum := 0 }

/-- `InfoSet.get_strategy` (info_set.py lines 26-52): regret matching with a
uniform fallback, plus the strategy-sum / reach-sum side effects.  The keys of
`regret_sum` always include every element of `actions` (seeded at creation and
never removed), so the `defaultdict` reads in the first loop never insert. -/
def InfoSet.get_strategy (I : InfoSet K) (realization_weight : K) :
    Option (List (Action × K) × InfoSet K) := do
  let p := I.actions.foldl
    (fun (p : List (Action × K) × K) action =>
      let s := dset p.1 action (max 0 (dgetD I.regret_sum action 0))
      (s, p.2 + dgetD s action 0))
    ([], 0)
  let normalizing_sum := p.2
  let strategy ←
    if 0 < normalizing_sum then
      pure (I.actions.foldl (fun s a => dset s a (dgetD s a 0 / normalizing_sum)) p.1)
    else do
      let uniform_prob ← pydiv 1 (I.num_actions : K)
      pure (I.actions.foldl (fun s a => dset s a uniform_prob) p.1)
  let strategy_sum' := I.actions.foldl
    (fun m a => dset m a (dgetD m a 0 + realization_weight * dgetD strategy a 0))
    I.strategy_sum
  some (strategy,
    { I with
      strategy_sum := strategy_sum'
      reach_probability_sum := I.reach_probability_sum + realization_weight })

/-- `InfoSet.get_average_strategy` (info_set.py lines 54-73): normalize the
cumulative strategy weights, uniform fallback if their sum is not positive.
The source method writes nothing; the embedding is a pure function of `I`. -/
def InfoSet.get_average_strategy (I : InfoSet K) : Option (List (Action × K)) :=
  let normalizing_sum := I.actions.foldl (fun n a => n + dgetD I.strategy_sum a 0) 0
  if 0 < normalizing_sum then
    some (I.actions.foldl
      (fun m a => dset m a (dgetD I.strategy_sum a 0 / normalizing_sum)) [])
  else
    match pydiv 1 (I.num_actions : K) with
    | none => none
    | some uniform_prob => some (I.actions.foldl (fun m a => dset m a uniform_prob) [])

/-- `InfoSet.update_regret` (info_set.py lines 75-77):
`self.regret_sum[action] += regret` on a `defaultdict` — reading a missing
key inserts it with `0.0`, then the sum is written back. -/
def InfoSet.update_regret (I : InfoSet K) (action : Action) (regret : K) : InfoSet K :=
  let p := ddgetInsert I.regret_sum action 0
  { I with regret_sum := dset p.2 action (p.1 + regret) }

/-- `InfoSet.apply_regret_floor` (info_set.py lines 79-83): clamp negative
cumulative regrets of listed actions to zero.  Every listed action is already
a key of `regret_sum` (seeded at creation), so the reads never insert. -/
def InfoSet.apply_regret_floor (I : InfoSet K) : InfoSet K :=
  { I with
    regret_sum := I.actions.foldl
      (fun m a => if dgetD m a 0 < 0 then dset m a 0 else m) I.regret_sum }

/-- `InfoSet.discount_regrets` (info_set.py lines 85-95): multiply positive
cumulative regrets by `pos_discount`, the rest by `neg_discount`. -/
def InfoSet.discount_regrets (I : InfoSet K) (pos_discount neg_discount : K) :
    InfoSet K :=
  { I with
    regret_sum := I.actions.foldl
      (fun m a =>
        if 0 < dgetD m a 0 then dset m a (dgetD m a 0 * pos_discount)
        else dset m a (dgetD m a 0 * neg_discount))
      I.regret_sum }

/-- `InfoSet.discount_strategy` (info_set.py lines 97-101): multiply every
listed action's cumulative strategy weight and the reach counter by
`discount`. -/
def InfoSet.discount_strategy (I : InfoSet K) (discount : K) : InfoSet K :=
  { I with
    strategy_sum := I.actions.foldl
      (fun m a => dset m a (dgetD m a 0 * discount)) I.strategy_sum
    reach_probability_sum := I.reach_probability_sum * discount }

/-- The regret-matching normalizer of `get_strategy`: the sum over the fixed
action list of the positive parts of the cumulative regrets. -/
def strategyNormSum (I : InfoSet K) : K :=
  (I.actions.map (fun a => max 0 (dgetD I.regret_sum a 0))).sum

/-- The normalizer of `get_average_strategy`: the sum over the fixed action
list of the cumulative strategy weights. -/
def strategySumTotal (I : InfoSet K) : K :=
  (I.actions.map (fun a => dgetD I.strategy_sum a 0)).sum

/-! ### The game interface (`src/cfr/game_state.py`) and training engine
(`src/cfr/cfr_trainer.py`) -/

/-- The abstract base class `GameState` (src/cfr/game_state.py), as a record
of capabilities over a caller-chosen state type `S`.  `take_action` returns
`none` when the game rejects the action (spec §7: `InvalidActionError`). -/
structure Game (S K : Type) where
  is_terminal : S → Bool
  get_utility : S → Int → K
  get_current_player : S → Int
  get_infoset_key : S → String
  get_actions : S → List Action
  take_action : S → Action → Option S
  get_chance_probabilities : S → List (Action × K)
  clone : S → S

/-- State of `class CFRTrainer` (cfr_trainer.py lines 13-36). -/
structure CFRTrainer (K : Type) where
  num_players : ℕ
  variant : String
  infosets : List (String × InfoSet K)
  iteration : ℕ
  alpha : K
  beta : K
  gamma : K
  prev_strategies : List (String × List (Action × K))
  deriving DecidableEq

/-- `CFRTrainer.__init__` (cfr_trainer.py lines 13-36): any `variant` string
is stored unvalidated; DCFR defaults are `alpha = 1.5`, `beta = 0`,
`gamma = 2`. -/
def mkCFRTrainer (num_players : ℕ) (variant : String) : CFRTrainer K :=
  { num_players := num_players
    variant := variant
    infosets := []
    iteration := 0
    alpha := 3 / 2
    beta := 0
    gamma := 2
    prev_strategies := [] }

/-- `CFRTrainer.get_infoset` (cfr_trainer.py lines 44-53): get or create the
accumulator for the state's key.  There is no chance/terminal check; on a
miss the state's reported player and actions are used as they are. -/
def CFRTrainer.get_infoset {S : Type} (G : Game S K) (T : CFRTrainer K) (state : S) :
    InfoSet K × CFRTrainer K :=
  let key := G.get_infoset_key state
  match dlookup T.infosets key with
  | some I => (I, T)
  | none =>
      let I := mkInfoSet key (G.get_actions state) (G.get_current_player state)
      (I, { T with infosets := dset T.infosets key I })

/-- The chance-node loop of `CFRTrainer._cfr` (cfr_trainer.py lines 162-170):
probability-weighted sum of recursive values, `reach_probs` untouched.
`recur` is the recursive call with `reach_probs` and `updating_player`
already fixed. -/
def chanceLoop {S : Type} (G : Game S K)
    (recur : CFRTrainer K → S → Option (K × CFRTrainer K)) (state : S) :
    List (Action × K) → K × CFRTrainer K → Option (K × CFRTrainer K)
  | [], acc => some acc
  | ap :: rest, acc => do
      let new_state ← G.take_action state ap.1
      let vT ← recur acc.2 new_state
      chanceLoop G recur state rest (acc.1 + ap.2 * vT.1, vT.2)

/-- The per-action loop of `CFRTrainer._cfr` (cfr_trainer.py lines 178-186):
recurse with the actor's reach probability scaled by the action's strategy
probability, recording action values and the strategy-weighted expected
value.  The accumulator is `(action_values, expected_value, trainer)`. -/
def actionLoop {S : Type} (G : Game S K)
    (recur : CFRTrainer K → S → List K → Option (K × CFRTrainer K)) (state : S)
    (strategy : List (Action × K)) (reach_probs : List K) (current_player : Int) :
    List Action → List (Action × K) × K × CFRTrainer K →
      Option (List (Action × K) × K × CFRTrainer K)
  | [], acc => some acc
  | action :: rest, acc => do
      let rv ← pyIdx reach_probs current_player
      let new_reach_probs ← pySetIdx reach_probs current_player
        (rv * dgetD strategy action 0)
      let new_state ← G.take_action state action
      let avT ← recur acc.2.2 new_state new_reach_probs
      actionLoop G recur state strategy reach_probs current_player rest
        (dset acc.1 action avT.1, acc.2.1 + dgetD strategy action 0 * avT.1, avT.2)

/-- The counterfactual-reach loop of `CFRTrainer._cfr` (cfr_trainer.py lines
189-192): product of `reach_probs[p]` over `p` in `range(num_players)` with
`p != current_player`. -/
def cfrReachLoop (current_player : Int) (reach_probs : List K) :
    List ℕ → K → Option K
  | [], acc => some acc
  | p :: rest, acc =>
      if (p : Int) = current_player then
        cfrReachLoop current_player reach_probs rest acc
      else do
        let r ← pyIdx reach_probs (p : Int)
        cfrReachLoop current_player reach_probs rest (acc * r)

/-- The regret-update loop of `CFRTrainer._cfr` (cfr_trainer.py lines
194-196). -/
def regretLoop (actions : List Action) (I : InfoSet K)
    (cfr_reach expected_value : K) (action_values : List (Action × K)) : InfoSet K :=
  actions.foldl
    (fun J action =>
      J.update_regret action (cfr_reach * (dgetD action_values action 0 - expected_value)))
    I

/-- The body of `CFRTrainer._cfr` (cfr_trainer.py lines 143-198) for one
node, with the recursive call abstracted as `recur`.  Python mutates the
`InfoSet` object aliased by the `infosets` dict entry; the embedding writes
the updated accumulator back into the table at the state's key after
`get_strategy` and after the regret loop.  The key is present at those points
(`get_infoset` inserted it and entries are never removed), so the `getD`
default of the aliased lookup is never used. -/
def CFRTrainer.cfrStep {S : Type} (G : Game S K)
    (recur : CFRTrainer K → S → List K → Int → Option (K × CFRTrainer K))
    (T : CFRTrainer K) (state : S) (reach_probs : List K) (updating_player : Int) :
    Option (K × CFRTrainer K) :=
  if G.is_terminal state then some (G.get_utility state updating_player, T)
  else
    let current_player := G.get_current_player state
    if current_player = -1 then
      chanceLoop G (fun T' s' => recur T' s' reach_probs updating_player)
        state (G.get_chance_probabilities state) (0, T)
    else do
      let key := G.get_infoset_key state
      let pI := CFRTrainer.get_infoset G T state
      let infoset := pI.1
      let rw ← pyIdx reach_probs current_player
      let stI ← infoset.get_strategy rw
      let strategy := stI.1
      let T₁ := { pI.2 with infosets := dset pI.2.infosets key stI.2 }
      let acc ←
        actionLoop G (fun T' s' r' => recur T' s' r' updating_player)
          state strategy reach_probs current_player infoset.actions ([], 0, T₁)
      let action_values := acc.1
      let expected_value := acc.2.1
      let T₂ := acc.2.2
      if current_player = updating_player then do
        let cfr_reach ← cfrReachLoop current_player reach_probs
          (List.range T₂.num_players) 1
        let aliased := (dlookup T₂.infosets key).getD stI.2
        let updated := regretLoop infoset.actions aliased cfr_reach expected_value
          action_values
        some (expected_value, { T₂ with infosets := dset T₂.infosets key updated })
      else
        some (expected_value, T₂)

/-- `CFRTrainer._cfr` (cfr_trainer.py lines 143-198) with explicit fuel for
the unbounded recursion; exhausted fuel is `none`. -/
def CFRTrainer.cfr {S : Type} (G : Game S K) :
    ℕ → CFRTrainer K → S → List K → Int → Option (K × CFRTrainer K)
  | 0 => fun _ _ _ _ => none
  | fuel + 1 => CFRTrainer.cfrStep G (CFRTrainer.cfr G fuel)

/-- `CFRTrainer._apply_post_iteration_updates` (cfr_trainer.py lines
200-221).  `rpow` is the semantics of Python float `**` (real `x ** y`);
an unrecognized variant falls through every branch and changes nothing. -/
def CFRTrainer.apply_post_iteration_updates (rpow : K → K → K) (T : CFRTrainer K) :
    CFRTrainer K :=
  let t := T.iteration
  if T.variant = "cfr_plus" then
    { T with infosets := T.infosets.map (fun kv => (kv.1, kv.2.apply_regret_floor)) }
  else if T.variant = "lcfr" then
    let discount := (t : K) / ((t : K) + 1)
    let updated := T.infosets.map
      (fun kv => (kv.1, (kv.2.discount_regrets discount discount).discount_strategy discount))
    { T with infosets := updated }
  else if T.variant = "dcfr" then
    let pos_discount := rpow (t : K) T.alpha / (rpow (t : K) T.alpha + 1)
    let neg_discount := rpow (t : K) T.beta / (rpow (t : K) T.beta + 1)
    let strat_discount := rpow ((t : K) / ((t : K) + 1)) T.gamma
    let updated := T.infosets.map
      (fun kv => (kv.1, (kv.2.discount_regrets pos_discount neg_discount).discount_strategy strat_discount))
    { T with infosets := updated }
  else T

/-- `CFRTrainer._calculate_strategy_change` (cfr_trainer.py lines 55-82):
L1 distance between each accumulator's current and previously snapshotted
average strategy, summed per owning player; refreshes `prev_strategies` as it
iterates.  A `KeyError` on `player_changes[infoset.player]` and the division
failure inside `get_average_strategy` are `none`. -/
def CFRTrainer.calculate_strategy_change (T : CFRTrainer K) :
    Option (List (Int × K) × CFRTrainer K) := do
  let init : List (Int × K) :=
    (List.range T.num_players).foldl (fun m p => dset m (p : Int) 0) []
  let res ← T.infosets.foldlM
    (fun (acc : List (Int × K) × List (String × List (Action × K))) kv => do
      let current_strategy ← kv.2.get_average_strategy
      let acc₁ ←
        match dlookup acc.2 kv.1 with
        | some prev_strategy =>
            let change := current_strategy.foldl
              (fun ch entry =>
                ch + |dgetD current_strategy entry.1 0 - dgetD prev_strategy entry.1 0|) 0
            match dlookup acc.1 kv.2.player with
            | some old => pure (dset acc.1 kv.2.player (old + change), acc.2)
            | none => none
        | none => pure acc
      pure (acc₁.1, dset acc₁.2 kv.1 current_strategy))
    (init, T.prev_strategies)
  some (res.1, { T with prev_strategies := res.2 })

/-- The baseline-snapshot branch of `CFRTrainer.train` (cfr_trainer.py lines
133-137): store every accumulator's average strategy in `prev_strategies`. -/
def CFRTrainer.snapshot_strategies (T : CFRTrainer K) : Option (CFRTrainer K) := do
  let prev ← T.infosets.foldlM
    (fun acc kv => do
      let avg ← kv.2.get_average_strategy
      pure (dset acc kv.1 avg))
    T.prev_strategies
  pure { T with prev_strategies := prev }

/-- One pass of the outer loop body of `CFRTrainer.train` before the
convergence check (cfr_trainer.py lines 101-107): bump the iteration counter,
run one `_cfr` traversal per updating player from the cloned root with all
reach probabilities `1.0`, then apply the variant update. -/
def CFRTrainer.run_iteration {S : Type} (G : Game S K) (rpow : K → K → K) (fuel : ℕ)
    (T : CFRTrainer K) (root_state : S) : Option (CFRTrainer K) := do
  let T₁ := { T with iteration := T.iteration + 1 }
  let T₂ ← (List.range T₁.num_players).foldlM
    (fun (T' : CFRTrainer K) player => do
      let reach_probs := List.replicate T'.num_players (1 : K)
      let vT ← CFRTrainer.cfr G fuel T' (G.clone root_state) reach_probs (player : Int)
      pure vT.2)
    T₁
  pure (T₂.apply_post_iteration_updates rpow)

/-- The outer loop of `CFRTrainer.train` (cfr_trainer.py lines 100-141).
The source loop `for i in range(iterations)` is modelled with `remaining`
counting the passes still to run (so `remaining + i = iterations`
throughout); when `remaining` reaches `0` the loop is exhausted and the
source returns `iterations` (line 141).  On convergence the source returns
the 0-based loop index `i` (line 130). -/
def CFRTrainer.train_loop {S : Type} (G : Game S K) (rpow : K → K → K) (fuel : ℕ)
    (root_state : S) (iterations : ℕ) (epsilon : K) (check_interval : ℕ) :
    ℕ → ℕ → CFRTrainer K → Option (ℕ × CFRTrainer K)
  | 0, _, T => some (iterations, T)
  | remaining + 1, i, T => do
      let T₁ ← CFRTrainer.run_iteration G rpow fuel T root_state
      let m ← pymod (i + 1) check_interval
      if 0 < i ∧ m = 0 ∧ 0 < T₁.prev_strategies.length then do
        let chT ← T₁.calculate_strategy_change
        let total_change := (chT.1.map (fun pc => pc.2)).sum
        if total_change < epsilon then some (i, chT.2)
        else
          CFRTrainer.train_loop G rpow fuel root_state iterations epsilon check_interval
            remaining (i + 1) chT.2
      else do
        let T₂ ← if m = 0 then T₁.snapshot_strategies else pure T₁
        CFRTrainer.train_loop G rpow fuel root_state iterations epsilon check_interval
          remaining (i + 1) T₂

/-- `CFRTrainer.train` (cfr_trainer.py lines 84-141). -/
def CFRTrainer.train {S : Type} (G : Game S K) (rpow : K → K → K) (fuel : ℕ)
    (T : CFRTrainer K) (root_state : S) (iterations : ℕ) (epsilon : K)
    (check_interval : ℕ) : Option (ℕ × CFRTrainer K) :=
  CFRTrainer.train_loop G rpow fuel root_state iterations epsilon check_interval
    iterations 0 T

/-! ### A concrete game for executable runs -/

/-- Information-set key of the demo game's single decision node. -/
def oneNodeKey : String := "R"

/-- First action of the demo game. -/
def actA : Action := "A"

/-- Second action of the demo game. -/
def actB : Action := "B"

/-- A minimal concrete two-player game: state `0` is a decision node of
player `0` with actions `[actA, actB]`, each leading to the terminal state
`1` where both players receive utility `0`. -/
def demoGame : Game ℕ K :=
  { is_terminal := fun s => decide (s ≠ 0)
    get_utility := fun _ _ => 0
    get_current_player := fun s => if s = 0 then 0 else -1
    get_infoset_key := fun _ => oneNodeKey
    get_actions := fun s => if s = 0 then [actA, actB] else []
    take_action := fun s _ => if s = 0 then some 1 else none
    get_chance_probabilities := fun _ => []
    clone := fun s => s }


/-- An arbitrary stand-in for the float `**` semantics, passed to trainer
runs whose variant never reaches a `**` (the dispatch provably ignores it). -/
def rp0 : ℚ → ℚ → ℚ := fun _ _ => 0

/-- A variant name matching none of the recognized variant strings. -/
def oddVariant : String := "vanila"

/-- A single-player game with one decision node (player `0`, single action
`actA`) leading to a terminal state of utility `0`: the average strategy is
constant, so `train` converges at the first eligible checkpoint. -/
def tinyGame : Game ℕ ℚ :=
  { is_terminal := fun s => decide (s ≠ 0)
    get_utility := fun _ _ => 0
    get_current_player := fun s => if s = 0 then 0 else -1
    get_infoset_key := fun _ => oneNodeKey
    get_actions := fun s => if s = 0 then [actA] else []
    take_action := fun s _ => if s = 0 then some 1 else none
    get_chance_probabilities := fun _ => []
    clone := fun s => s }

/-- `tinyGame` accumulator state after one training iteration. -/
abbrev tinyI1 : InfoSet ℚ :=
  ⟨oneNodeKey, [actA], 0, 1, [(actA, 0)], [(actA, 1)], 1⟩

/-- `tinyGame` accumulator state after two training iterations. -/
abbrev tinyI2 : InfoSet ℚ :=
  ⟨oneNodeKey, [actA], 0, 1, [(actA, 0)], [(actA, 2)], 2⟩

/-- `tinyGame` trainer before training. -/
abbrev tinyT0 : CFRTrainer ℚ := mkCFRTrainer 1 "vanilla"

/-- `tinyGame` trainer after the first iteration (loop index 0), before the
snapshot branch runs. -/
abbrev tinyT1 : CFRTrainer ℚ :=
  ⟨1, "vanilla", [(oneNodeKey, tinyI1)], 1, 3 / 2, 0, 2, []⟩

/-- `tinyGame` trainer after the snapshot at loop index 0. -/
abbrev tinyT2 : CFRTrainer ℚ :=
  ⟨1, "vanilla", [(oneNodeKey, tinyI1)], 1, 3 / 2, 0, 2, [(oneNodeKey, [(actA, 1)])]⟩

/-- `tinyGame` trainer after the second iteration (loop index 1); the
convergence check leaves it unchanged. -/
abbrev tinyT3 : CFRTrainer ℚ :=
  ⟨1, "vanilla", [(oneNodeKey, tinyI2)], 2, 3 / 2, 0, 2, [(oneNodeKey, [(actA, 1)])]⟩

/-- A concrete one-accumulator trainer in the discounted variant after its
first iteration, used to witness the DCFR update. -/
noncomputable def dcfrTrainer : CFRTrainer ℝ :=
  ⟨2, "dcfr", [(oneNodeKey, mkInfoSet oneNodeKey [actA] 0)], 1, 1.5, 0, 2, []⟩


/-- The accumulator `demoGame` creates at its decision node. -/
abbrev demoI : InfoSet ℚ :=
  ⟨oneNodeKey, [actA, actB], 0, 2, [(actA, 0), (actB, 0)], [(actA, 0), (actB, 0)], 0⟩

/-- `demoI` after one `get_strategy` call with reach weight 1. -/
abbrev demoI1 : InfoSet ℚ :=
  ⟨oneNodeKey, [actA, actB], 0, 2, [(actA, 0), (actB, 0)],
    [(actA, 1 / 2), (actB, 1 / 2)], 1⟩

/-- The trainer right after `demoGame`\'s accumulator is created. -/
abbrev demoT1 : CFRTrainer ℚ :=
  ⟨2, "vanilla", [(oneNodeKey, demoI)], 0, 3 / 2, 0, 2, []⟩

/-- The trainer after the `get_strategy` side effect is written back. -/
abbrev demoT2 : CFRTrainer ℚ :=
  ⟨2, "vanilla", [(oneNodeKey, demoI1)], 0, 3 / 2, 0, 2, []⟩

/-- The strategy dict `get_strategy` returns at `demoGame`\'s root. -/
abbrev demoSt : List (Action × ℚ) := [(actA, 1 / 2), (actB, 1 / 2)]

/-- The action-loop output at `demoGame`\'s root: zero action values, zero
expected value, trainer `demoT2`. -/
abbrev demoOut : List (Action × ℚ) × ℚ × CFRTrainer ℚ :=
  ([(actA, 0), (actB, 0)], 0, demoT2)

/-! ### Basic facts about the dict model -/

theorem dlookup_dset {κ β : Type} [DecidableEq κ] (m : List (κ × β)) (k : κ) (v : β)
    (q : κ) : dlookup (dset m k v) q = if q = k then some v else dlookup m q := by
  induction m with
  | nil =>
      rcases eq_or_ne q k with rfl | h
      · simp [dset, dlookup]
      · simp [dset, dlookup, h, Ne.symm h]
  | cons p rest ih =>
      simp only [dset]
      by_cases hpk : p.1 = k
      · rcases eq_or_ne q k with rfl | h
        · simp [if_pos hpk, dlookup]
        · simp [if_pos hpk, dlookup, hpk, Ne.symm h, h]
      · simp only [if_neg hpk, dlookup, ih]
        by_cases hpq : p.1 = q
        · have hqk : q ≠ k := fun hh => hpk (hpq.trans hh)
          simp [hpq, hqk]
        · simp [hpq]

theorem dgetD_dset_self {κ β : Type} [DecidableEq κ] (m : List (κ × β)) (k : κ)
    (v d : β) : dgetD (dset m k v) k d = v := by
  simp [dgetD, dlookup_dset]

theorem dgetD_dset_ne {κ β : Type} [DecidableEq κ] (m : List (κ × β)) (k : κ)
    (v d : β) (q : κ) (h : q ≠ k) : dgetD (dset m k v) q d = dgetD m q d := by
  simp [dgetD, dlookup_dset, h]

theorem dgetD_nil {κ β : Type} [DecidableEq κ] (k : κ) (d : β) :
    dgetD ([] : List (κ × β)) k d = d := rfl

/-- Pointwise characterization of a left fold that rewrites a map at each key
of a duplicate-free list: every listed key ends at `f` of its initial value,
every other key is untouched. -/
theorem foldl_step_pointwise {κ β : Type} [DecidableEq κ]
    (σ : List (κ × β) → κ → List (κ × β)) (f : κ → β → β) (d : β)
    (hself : ∀ m k, dgetD (σ m k) k d = f k (dgetD m k d))
    (hother : ∀ m k q, q ≠ k → dgetD (σ m k) q d = dgetD m q d) :
    ∀ (l : List κ), l.Nodup → ∀ m₀ : List (κ × β),
      (∀ k ∈ l, dgetD (l.foldl σ m₀) k d = f k (dgetD m₀ k d)) ∧
      (∀ q, q ∉ l → dgetD (l.foldl σ m₀) q d = dgetD m₀ q d) := by
  intro l
  induction l with
  | nil => intro _ m₀; exact ⟨by simp, by simp⟩
  | cons a rest ih =>
      intro hnd m₀
      obtain ⟨ha, hrest⟩ := List.nodup_cons.mp hnd
      obtain ⟨ih1, ih2⟩ := ih hrest (σ m₀ a)
      refine ⟨?_, ?_⟩
      · intro k hk
        rcases List.mem_cons.mp hk with rfl | hk'
        · rw [List.foldl_cons, ih2 k ha, hself]
        · rw [List.foldl_cons, ih1 k hk',
            hother m₀ a k (by rintro rfl; exact ha hk')]
      · intro q hq
        rw [List.foldl_cons, ih2 q (fun h => hq (List.mem_cons_of_mem _ h)),
          hother m₀ a q (fun h => hq (h ▸ List.mem_cons_self _ _))]

/-- A fold accumulating `+ g a` is the initial value plus the mapped sum. -/
theorem foldl_add_sum {α K : Type} [LinearOrderedField K] (g : α → K) :
    ∀ (l : List α) (n₀ : K),
      l.foldl (fun n a => n + g a) n₀ = n₀ + (l.map g).sum := by
  intro l
  induction l with
  | nil => intro n₀; simp
  | cons a rest ih => intro n₀; simp [ih, add_assoc]

/-- The first loop of `get_strategy` (build the positive-part dict while
accumulating the normalizing sum) splits into an independent dict fold and
the sum of positive parts. -/
theorem get_strategy_fold1 (I : InfoSet K) :
    ∀ (L : List Action) (m₀ : List (Action × K)) (n₀ : K),
      L.foldl
        (fun (p : List (Action × K) × K) action =>
          let s := dset p.1 action (max 0 (dgetD I.regret_sum action 0))
          (s, p.2 + dgetD s action 0))
        (m₀, n₀)
        = (L.foldl (fun s a => dset s a (max 0 (dgetD I.regret_sum a 0))) m₀,
           n₀ + (L.map (fun a => max 0 (dgetD I.regret_sum a 0))).sum) := by
  intro L
  induction L with
  | nil => intro m₀ n₀; simp
  | cons a rest ih =>
      intro m₀ n₀
      simp only [List.foldl_cons, List.map_cons, List.sum_cons]
      rw [ih]
      simp [dgetD_dset_self, add_assoc]

/-- `get_strategy` in the normalizing branch (positive regret mass). -/
theorem get_strategy_eq_pos (I : InfoSet K) (w : K)
    (hns : 0 < (I.actions.map (fun a => max 0 (dgetD I.regret_sum a 0))).sum) :
    I.get_strategy w =
      (let ns := (I.actions.map (fun a => max 0 (dgetD I.regret_sum a 0))).sum
       let m1 := I.actions.foldl
         (fun s a => dset s a (max 0 (dgetD I.regret_sum a 0))) []
       let st := I.actions.foldl (fun s a => dset s a (dgetD s a 0 / ns)) m1
       some (st,
        { I with
          strategy_sum := I.actions.foldl
            (fun m a => dset m a (dgetD m a 0 + w * dgetD st a 0)) I.strategy_sum
          reach_probability_sum := I.reach_probability_sum + w })) := by
  simp only [InfoSet.get_strategy]
  rw [get_strategy_fold1]
  simp only [zero_add]
  rw [if_pos hns]
  rfl

/-- `get_strategy` in the uniform-fallback branch with a non-empty action
count. -/
theorem get_strategy_eq_unif (I : InfoSet K) (w : K)
    (hns : ¬ 0 < (I.actions.map (fun a => max 0 (dgetD I.regret_sum a 0))).sum)
    (hn0 : (I.num_actions : K) ≠ 0) :
    I.get_strategy w =
      (let m1 := I.actions.foldl
         (fun s a => dset s a (max 0 (dgetD I.regret_sum a 0))) []
       let st := I.actions.foldl
         (fun s a => dset s a (1 / (I.num_actions : K))) m1
       some (st,
        { I with
          strategy_sum := I.actions.foldl
            (fun m a => dset m a (dgetD m a 0 + w * dgetD st a 0)) I.strategy_sum
          reach_probability_sum := I.reach_probability_sum + w })) := by
  simp only [InfoSet.get_strategy]
  rw [get_strategy_fold1]
  simp only [zero_add]
  rw [if_neg hns]
  simp only [pydiv, if_neg hn0, Option.some_bind]
  rfl

/-- C3: `get_strategy` is regret matching — each action weighs in with the
positive part of its cumulative regret, normalized when the positive mass is
positive and uniform (`1/num_actions`) otherwise — and as a side effect each
listed action\'s cumulative strategy weight grows by `reach_weight` times its
returned probability while the reach counter grows by `reach_weight`; regrets
and the action list are untouched.  With all-zero cumulative regret the
returned distribution is uniform. -/
theorem claim_C3_derive_strategy_regret_matching (I : InfoSet K) (w : K)
    (hnd : I.actions.Nodup) (hlen : I.num_actions = I.actions.length)
    (hne : I.actions ≠ []) :
    ∃ st I', I.get_strategy w = some (st, I') ∧
      (∀ a ∈ I.actions, dgetD st a 0 =
        if 0 < strategyNormSum I then
          max 0 (dgetD I.regret_sum a 0) / strategyNormSum I
        else 1 / (I.num_actions : K)) ∧
      (∀ a ∈ I.actions,
        dgetD I'.strategy_sum a 0 = dgetD I.strategy_sum a 0 + w * dgetD st a 0) ∧
      I'.reach_probability_sum = I.reach_probability_sum + w ∧
      I'.regret_sum = I.regret_sum ∧ I'.actions = I.actions ∧
      ((∀ a ∈ I.actions, dgetD I.regret_sum a 0 = 0) →
        ∀ a ∈ I.actions, dgetD st a 0 = 1 / (I.num_actions : K)) := by
  have hm1 := foldl_step_pointwise
    (fun s a => dset s a (max 0 (dgetD I.regret_sum a 0)))
    (fun a _ => max 0 (dgetD I.regret_sum a 0)) 0
    (fun m k => dgetD_dset_self m k _ 0)
    (fun m k q h => dgetD_dset_ne m k _ 0 q h)
    I.actions hnd []
  by_cases hns : 0 < (I.actions.map (fun a => max 0 (dgetD I.regret_sum a 0))).sum
  · rw [get_strategy_eq_pos I w hns]
    have hst := foldl_step_pointwise
      (fun s a => dset s a (dgetD s a 0 /
        (I.actions.map (fun a => max 0 (dgetD I.regret_sum a 0))).sum))
      (fun a v => v /
        (I.actions.map (fun a => max 0 (dgetD I.regret_sum a 0))).sum) 0
      (fun m k => dgetD_dset_self m k _ 0)
      (fun m k q h => dgetD_dset_ne m k _ 0 q h)
      I.actions hnd
      (I.actions.foldl (fun s a => dset s a (max 0 (dgetD I.regret_sum a 0))) [])
    refine ⟨_, _, rfl, ?_, ?_, rfl, rfl, rfl, ?_⟩
    · intro a ha
      simp only [strategyNormSum]
      rw [if_pos hns, hst.1 a ha, hm1.1 a ha]
    · intro a ha
      have hss := foldl_step_pointwise
        (fun m a => dset m a (dgetD m a 0 + w * dgetD
          (I.actions.foldl (fun s a => dset s a (dgetD s a 0 /
            (I.actions.map (fun a => max 0 (dgetD I.regret_sum a 0))).sum))
            (I.actions.foldl (fun s a => dset s a (max 0 (dgetD I.regret_sum a 0))) []))
          a 0))
        (fun a v => v + w * dgetD
          (I.actions.foldl (fun s a => dset s a (dgetD s a 0 /
            (I.actions.map (fun a => max 0 (dgetD I.regret_sum a 0))).sum))
            (I.actions.foldl (fun s a => dset s a (max 0 (dgetD I.regret_sum a 0))) []))
          a 0) 0
        (fun m k => dgetD_dset_self m k _ 0)
        (fun m k q h => dgetD_dset_ne m k _ 0 q h)
        I.actions hnd I.strategy_sum
      exact hss.1 a ha
    · intro h0
      exfalso
      have hz : (I.actions.map (fun a => max 0 (dgetD I.regret_sum a 0))).sum = 0 := by
        apply List.sum_eq_zero
        intro x hx
        obtain ⟨a, ha, rfl⟩ := List.mem_map.mp hx
        simp [h0 a ha]
      rw [hz] at hns
      exact lt_irrefl 0 hns
  · have hn0 : (I.num_actions : K) ≠ 0 := by
      rw [hlen]
      exact Nat.cast_ne_zero.mpr (fun hz => hne (List.length_eq_zero.mp hz))
    rw [get_strategy_eq_unif I w hns hn0]
    have hst := foldl_step_pointwise
      (fun s a => dset s a (1 / (I.num_actions : K)))
      (fun a v => 1 / (I.num_actions : K)) 0
      (fun m k => dgetD_dset_self m k _ 0)
      (fun m k q h => dgetD_dset_ne m k _ 0 q h)
      I.actions hnd
      (I.actions.foldl (fun s a => dset s a (max 0 (dgetD I.regret_sum a 0))) [])
    refine ⟨_, _, rfl, ?_, ?_, rfl, rfl, rfl, ?_⟩
    · intro a ha
      simp only [strategyNormSum]
      rw [if_neg hns, hst.1 a ha]
    · intro a ha
      have hss := foldl_step_pointwise
        (fun m a => dset m a (dgetD m a 0 + w * dgetD
          (I.actions.foldl (fun s a => dset s a (1 / (I.num_actions : K)))
            (I.actions.foldl (fun s a => dset s a (max 0 (dgetD I.regret_sum a 0))) []))
          a 0))
        (fun a v => v + w * dgetD
          (I.actions.foldl (fun s a => dset s a (1 / (I.num_actions : K)))
            (I.actions.foldl (fun s a => dset s a (max 0 (dgetD I.regret_sum a 0))) []))
          a 0) 0
        (fun m k => dgetD_dset_self m k _ 0)
        (fun m k q h => dgetD_dset_ne m k _ 0 q h)
        I.actions hnd I.strategy_sum
      exact hss.1 a ha
    · intro _ a ha
      rw [hst.1 a ha]

/-- Dividing every list element by a constant divides the sum. -/
theorem list_sum_div (l : List K) (c : K) :
    (l.map (fun x => x / c)).sum = l.sum / c := by
  induction l with
  | nil => simp
  | cons x rest ih => simp [ih, add_div]

/-- C5: `get_average_strategy` (a read-only function of the accumulator by
construction) normalizes the cumulative strategy weights by their sum when
that sum is positive and falls back to uniform otherwise; under the
data-model invariant that the weights are non-negative, every returned
component is ≥ 0 and the components sum to 1. -/
theorem claim_C5_average_strategy_normalized (I : InfoSet K)
    (hnd : I.actions.Nodup) (hlen : I.num_actions = I.actions.length)
    (hne : I.actions ≠ [])
    (hpos : ∀ a ∈ I.actions, 0 ≤ dgetD I.strategy_sum a 0) :
    ∃ avg, I.get_average_strategy = some avg ∧
      (∀ a ∈ I.actions, dgetD avg a 0 =
        if 0 < strategySumTotal I then
          dgetD I.strategy_sum a 0 / strategySumTotal I
        else 1 / (I.num_actions : K)) ∧
      (∀ a ∈ I.actions, 0 ≤ dgetD avg a 0) ∧
      (I.actions.map (fun a => dgetD avg a 0)).sum = 1 := by
  have hn0 : (0 : K) < (I.num_actions : K) := by
    rw [hlen]
    exact_mod_cast List.length_pos.mpr hne
  by_cases hss : 0 < (I.actions.map (fun a => dgetD I.strategy_sum a 0)).sum
  · have havg := foldl_step_pointwise
      (fun m a => dset m a (dgetD I.strategy_sum a 0 /
        (I.actions.foldl (fun n a => n + dgetD I.strategy_sum a 0) 0)))
      (fun a _ => dgetD I.strategy_sum a 0 /
        (I.actions.foldl (fun n a => n + dgetD I.strategy_sum a 0) 0)) 0
      (fun m k => dgetD_dset_self m k _ 0)
      (fun m k q h => dgetD_dset_ne m k _ 0 q h)
      I.actions hnd []
    have heq : I.get_average_strategy = some (I.actions.foldl
        (fun m a => dset m a (dgetD I.strategy_sum a 0 /
          (I.actions.foldl (fun n a => n + dgetD I.strategy_sum a 0) 0))) []) := by
      simp only [InfoSet.get_average_strategy]
      rw [if_pos (by rw [foldl_add_sum]; simpa using hss)]
    have hval : ∀ a ∈ I.actions,
        dgetD (I.actions.foldl
          (fun m a => dset m a (dgetD I.strategy_sum a 0 /
            (I.actions.foldl (fun n a => n + dgetD I.strategy_sum a 0) 0))) []) a 0 =
        dgetD I.strategy_sum a 0 /
          (I.actions.map (fun a => dgetD I.strategy_sum a 0)).sum := by
      intro a ha
      rw [havg.1 a ha, foldl_add_sum, zero_add]
    refine ⟨_, heq, ?_, ?_, ?_⟩
    · intro a ha
      simp only [strategySumTotal]
      rw [if_pos hss, hval a ha]
    · intro a ha
      rw [hval a ha]
      exact div_nonneg (hpos a ha) hss.le
    · rw [List.map_congr_left hval]
      have : (I.actions.map (fun a => dgetD I.strategy_sum a 0 /
          (I.actions.map (fun a => dgetD I.strategy_sum a 0)).sum)).sum =
          ((I.actions.map (fun a => dgetD I.strategy_sum a 0)).map
            (fun x => x / (I.actions.map (fun a => dgetD I.strategy_sum a 0)).sum)).sum := by
        rw [List.map_map]
        rfl
      rw [this, list_sum_div, div_self (ne_of_gt hss)]
  · have havg := foldl_step_pointwise
      (fun m a => dset m a (1 / (I.num_actions : K)))
      (fun a _ => 1 / (I.num_actions : K)) 0
      (fun m k => dgetD_dset_self m k _ 0)
      (fun m k q h => dgetD_dset_ne m k _ 0 q h)
      I.actions hnd []
    have heq : I.get_average_strategy = some (I.actions.foldl
        (fun m a => dset m a (1 / (I.num_actions : K))) []) := by
      simp only [InfoSet.get_average_strategy]
      rw [if_neg (by rw [foldl_add_sum]; simpa using hss)]
      simp only [pydiv, if_neg (ne_of_gt hn0)]
    refine ⟨_, heq, ?_, ?_, ?_⟩
    · intro a ha
      simp only [strategySumTotal]
      rw [if_neg hss, havg.1 a ha]
    · intro a ha
      rw [havg.1 a ha]
      positivity
    · rw [List.map_congr_left (fun a ha => havg.1 a ha)]
      have hmc : I.actions.map (fun _ => 1 / (I.num_actions : K)) =
          List.replicate I.actions.length (1 / (I.num_actions : K)) := by
        simp [List.map_const']
      rw [hmc, List.sum_replicate, nsmul_eq_mul, ← hlen]
      field_simp


/-- The uniform fallback of `get_strategy` divides by `num_actions`; when the
action set is empty this is Python's `ZeroDivisionError`, modelled as `none`
(`pydiv 1 0`). -/
theorem get_strategy_eq_none (I : InfoSet K) (w : K)
    (hns : ¬ 0 < (I.actions.map (fun a => max 0 (dgetD I.regret_sum a 0))).sum)
    (hn0 : (I.num_actions : K) = 0) :
    I.get_strategy w = none := by
  simp only [InfoSet.get_strategy]
  rw [get_strategy_fold1]
  simp only [zero_add]
  rw [if_neg hns]
  simp [pydiv, hn0]

/-- C7: on an accumulator whose fixed action set is empty (so the sum of
positive regrets is 0), `get_strategy` takes the uniform-fallback branch and
divides `1.0` by `num_actions = 0` — a `ZeroDivisionError` (`none` here);
`get_average_strategy` does the same with zero cumulative strategy weight.
Neither method guards against an empty action set. -/
theorem claim_C7_empty_actions_division_by_zero :
    InfoSet.get_strategy (mkInfoSet (K := ℚ) oneNodeKey [] 0) 1 = none ∧
    InfoSet.get_average_strategy (mkInfoSet (K := ℚ) oneNodeKey [] 0) = none := by
  constructor <;> with_unfolding_all rfl

/-- C9: `CFRTrainer.__init__` stores any variant string unvalidated, and
`_apply_post_iteration_updates` falls through all three recognized branches
for every other string, leaving the trainer untouched — an unrecognized
variant silently trains exactly like vanilla CFR. -/
theorem claim_C9_unknown_variant_is_noop (n : ℕ) (v : String) (rpow : K → K → K)
    (T : CFRTrainer K) (h1 : v ≠ "cfr_plus") (h2 : v ≠ "lcfr") (h3 : v ≠ "dcfr")
    (hv : T.variant = v) :
    (mkCFRTrainer (K := K) n v).variant = v ∧
    T.apply_post_iteration_updates rpow = T := by
  refine ⟨rfl, ?_⟩
  simp only [CFRTrainer.apply_post_iteration_updates]
  rw [hv, if_neg h1, if_neg h2, if_neg h3]

/-- Witness for C9 at the misspelt variant string `"vanila"`. -/
theorem claim_C9_witness :
    (mkCFRTrainer (K := ℚ) 2 oddVariant).variant = oddVariant ∧
    (mkCFRTrainer (K := ℚ) 2 oddVariant).apply_post_iteration_updates rp0 =
      mkCFRTrainer 2 oddVariant :=
  claim_C9_unknown_variant_is_noop 2 oddVariant rp0 (mkCFRTrainer 2 oddVariant)
    (by decide) (by decide) (by decide) rfl

/-- Witness for C3 on a fresh two-action accumulator with reach weight 1. -/
theorem claim_C3_witness :
    ∃ st I',
      (mkInfoSet (K := ℚ) oneNodeKey [actA, actB] 0).get_strategy 1 = some (st, I') ∧
      (∀ a ∈ (mkInfoSet (K := ℚ) oneNodeKey [actA, actB] 0).actions, dgetD st a 0 =
        if 0 < strategyNormSum (mkInfoSet (K := ℚ) oneNodeKey [actA, actB] 0) then
          max 0 (dgetD (mkInfoSet (K := ℚ) oneNodeKey [actA, actB] 0).regret_sum a 0) /
            strategyNormSum (mkInfoSet (K := ℚ) oneNodeKey [actA, actB] 0)
        else 1 / ((mkInfoSet (K := ℚ) oneNodeKey [actA, actB] 0).num_actions : ℚ)) ∧
      (∀ a ∈ (mkInfoSet (K := ℚ) oneNodeKey [actA, actB] 0).actions,
        dgetD I'.strategy_sum a 0 =
          dgetD (mkInfoSet (K := ℚ) oneNodeKey [actA, actB] 0).strategy_sum a 0 +
            1 * dgetD st a 0) ∧
      I'.reach_probability_sum =
        (mkInfoSet (K := ℚ) oneNodeKey [actA, actB] 0).reach_probability_sum + 1 ∧
      I'.regret_sum = (mkInfoSet (K := ℚ) oneNodeKey [actA, actB] 0).regret_sum ∧
      I'.actions = (mkInfoSet (K := ℚ) oneNodeKey [actA, actB] 0).actions ∧
      ((∀ a ∈ (mkInfoSet (K := ℚ) oneNodeKey [actA, actB] 0).actions,
          dgetD (mkInfoSet (K := ℚ) oneNodeKey [actA, actB] 0).regret_sum a 0 = 0) →
        ∀ a ∈ (mkInfoSet (K := ℚ) oneNodeKey [actA, actB] 0).actions, dgetD st a 0 =
          1 / ((mkInfoSet (K := ℚ) oneNodeKey [actA, actB] 0).num_actions : ℚ)) :=
  claim_C3_derive_strategy_regret_matching (mkInfoSet oneNodeKey [actA, actB] 0) 1
    (by decide) (by decide) (by decide)

/-- Witness for C5 on a fresh two-action accumulator. -/
theorem claim_C5_witness :
    ∃ avg, (mkInfoSet (K := ℚ) oneNodeKey [actA, actB] 0).get_average_strategy = some avg ∧
      (∀ a ∈ (mkInfoSet (K := ℚ) oneNodeKey [actA, actB] 0).actions, dgetD avg a 0 =
        if 0 < strategySumTotal (mkInfoSet (K := ℚ) oneNodeKey [actA, actB] 0) then
          dgetD (mkInfoSet (K := ℚ) oneNodeKey [actA, actB] 0).strategy_sum a 0 /
            strategySumTotal (mkInfoSet (K := ℚ) oneNodeKey [actA, actB] 0)
        else 1 / ((mkInfoSet (K := ℚ) oneNodeKey [actA, actB] 0).num_actions : ℚ)) ∧
      (∀ a ∈ (mkInfoSet (K := ℚ) oneNodeKey [actA, actB] 0).actions, 0 ≤ dgetD avg a 0) ∧
      ((mkInfoSet (K := ℚ) oneNodeKey [actA, actB] 0).actions.map
        (fun a => dgetD avg a 0)).sum = 1 :=
  claim_C5_average_strategy_normalized (mkInfoSet oneNodeKey [actA, actB] 0)
    (by decide) (by decide) (by decide) (by with_unfolding_all decide)

/-- A fold whose every step preserves "all values non-negative" keeps the
invariant. -/
theorem foldl_preserve_nonneg {κ : Type} [DecidableEq κ]
    (σ : List (κ × K) → κ → List (κ × K))
    (hstep : ∀ m a, (∀ q, 0 ≤ dgetD m q 0) → ∀ q, 0 ≤ dgetD (σ m a) q 0) :
    ∀ (l : List κ) (m₀ : List (κ × K)),
      (∀ q, 0 ≤ dgetD m₀ q 0) → ∀ q, 0 ≤ dgetD (l.foldl σ m₀) q 0 := by
  intro l
  induction l with
  | nil => intro m₀ h q; simpa using h q
  | cons a rest ih => intro m₀ h q; exact ih (σ m₀ a) (hstep m₀ a h) q

/-- Writing a non-negative value into a map of non-negative values keeps all
values non-negative. -/
theorem dset_nonneg {κ : Type} [DecidableEq κ] (m : List (κ × K)) (k : κ) (v : K)
    (hm : ∀ q, 0 ≤ dgetD m q 0) (hv : 0 ≤ v) :
    ∀ q, 0 ≤ dgetD (dset m k v) q 0 := by
  intro q
  rcases eq_or_ne q k with rfl | h
  · rw [dgetD_dset_self]; exact hv
  · rw [dgetD_dset_ne _ _ _ _ _ h]; exact hm q

/-- A fold whose every step is pointwise non-decreasing is pointwise
non-decreasing. -/
theorem foldl_pointwise_mono {κ : Type} [DecidableEq κ]
    (σ : List (κ × K) → κ → List (κ × K))
    (hstep : ∀ m a q, dgetD m q 0 ≤ dgetD (σ m a) q 0) :
    ∀ (l : List κ) (m₀ : List (κ × K)) (q : κ),
      dgetD m₀ q 0 ≤ dgetD (l.foldl σ m₀) q 0 := by
  intro l
  induction l with
  | nil => intro m₀ q; simp
  | cons a rest ih =>
      intro m₀ q
      exact le_trans (hstep m₀ a q) (ih (σ m₀ a) q)

/-- Every value of the strategy dict returned by `get_strategy` is
non-negative (positive parts divided by a positive sum, or a uniform
probability). -/
theorem get_strategy_values_nonneg (I : InfoSet K) (w : K)
    (st : List (Action × K)) (I' : InfoSet K)
    (heq : I.get_strategy w = some (st, I')) :
    ∀ q, 0 ≤ dgetD st q 0 := by
  have hm1 : ∀ q, (0 : K) ≤ dgetD
      (I.actions.foldl (fun s a => dset s a (max 0 (dgetD I.regret_sum a 0))) []) q 0 := by
    refine foldl_preserve_nonneg _ ?_ I.actions [] (fun q => le_of_eq rfl.symm)
    intro m a hm q
    exact dset_nonneg m a _ hm (le_max_left 0 _) q
  by_cases hns : 0 < (I.actions.map (fun a => max 0 (dgetD I.regret_sum a 0))).sum
  · rw [get_strategy_eq_pos I w hns] at heq
    simp only [Option.some.injEq, Prod.mk.injEq] at heq
    obtain ⟨hst, -⟩ := heq
    rw [← hst]
    refine foldl_preserve_nonneg _ ?_ I.actions _ hm1
    intro m a hm q
    exact dset_nonneg m a _ hm (div_nonneg (hm a) hns.le) q
  · by_cases hn0 : (I.num_actions : K) = 0
    · rw [get_strategy_eq_none I w hns hn0] at heq
      exact absurd heq (by simp)
    · rw [get_strategy_eq_unif I w hns hn0] at heq
      simp only [Option.some.injEq, Prod.mk.injEq] at heq
      obtain ⟨hst, -⟩ := heq
      rw [← hst]
      refine foldl_preserve_nonneg _ ?_ I.actions _ hm1
      intro m a hm q
      refine dset_nonneg m a _ hm ?_ q
      exact one_div_nonneg.mpr (Nat.cast_nonneg _)

/-- C8: with a non-negative reach weight, `get_strategy` never decreases any
action's cumulative strategy weight: each increment is
`reach_weight × probability` with a non-negative probability. -/
theorem claim_C8_strategy_sum_monotone (I : InfoSet K) (w : K)
    (st : List (Action × K)) (I' : InfoSet K)
    (hw : 0 ≤ w) (heq : I.get_strategy w = some (st, I')) :
    ∀ a, dgetD I.strategy_sum a 0 ≤ dgetD I'.strategy_sum a 0 := by
  have hstnn := get_strategy_values_nonneg I w st I' heq
  have hmono : ∀ a, dgetD I.strategy_sum a 0 ≤ dgetD
      (I.actions.foldl
        (fun m a => dset m a (dgetD m a 0 + w * dgetD st a 0)) I.strategy_sum) a 0 := by
    refine foldl_pointwise_mono _ ?_ I.actions I.strategy_sum
    intro m a q
    rcases eq_or_ne q a with rfl | h
    · rw [dgetD_dset_self]
      exact le_add_of_nonneg_right (mul_nonneg hw (hstnn q))
    · rw [dgetD_dset_ne _ _ _ _ _ h]
  by_cases hns : 0 < (I.actions.map (fun a => max 0 (dgetD I.regret_sum a 0))).sum
  · rw [get_strategy_eq_pos I w hns] at heq
    simp only [Option.some.injEq, Prod.mk.injEq] at heq
    obtain ⟨hst, hI'⟩ := heq
    rw [← hI']
    intro a
    simpa [← hst] using hmono a
  · by_cases hn0 : (I.num_actions : K) = 0
    · rw [get_strategy_eq_none I w hns hn0] at heq
      exact absurd heq (by simp)
    · rw [get_strategy_eq_unif I w hns hn0] at heq
      simp only [Option.some.injEq, Prod.mk.injEq] at heq
      obtain ⟨hst, hI'⟩ := heq
      rw [← hI']
      intro a
      simpa [← hst] using hmono a

/-- Witness for C8 on a fresh two-action accumulator with reach weight 1. -/
theorem claim_C8_witness :
    (0 : ℚ) ≤ 1 ∧
    dgetD (mkInfoSet (K := ℚ) oneNodeKey [actA, actB] 0).strategy_sum actA 0 ≤
      dgetD (InfoSet.strategy_sum
        ⟨oneNodeKey, [actA, actB], 0, 2, [(actA, 0), (actB, 0)],
          [(actA, 1 / 2), (actB, 1 / 2)], 1⟩) actA 0 :=
  ⟨by norm_num,
   claim_C8_strategy_sum_monotone (mkInfoSet oneNodeKey [actA, actB] 0) 1
     [(actA, 1 / 2), (actB, 1 / 2)]
     ⟨oneNodeKey, [actA, actB], 0, 2, [(actA, 0), (actB, 0)],
       [(actA, 1 / 2), (actB, 1 / 2)], 1⟩
     (by norm_num) (by with_unfolding_all rfl) actA⟩

/-- Appending an entry for a different key does not change a lookup. -/
theorem dlookup_append_single_ne {κ β : Type} [DecidableEq κ]
    (k : κ) (d : β) (q : κ) (h : q ≠ k) :
    ∀ m : List (κ × β), dlookup (m ++ [(k, d)]) q = dlookup m q := by
  intro m
  induction m with
  | nil => simp [dlookup, Ne.symm h]
  | cons p rest ih => by_cases hpq : p.1 = q <;> simp [dlookup, hpq, ih]

/-- What `update_regret` does to the regret map: the targeted key ends at its
old (defaulted) value plus the increment — inserted at the end if it was
absent — and every other key is untouched. -/
theorem dlookup_update_regret (I : InfoSet K) (a : Action) (x : K) (q : Action) :
    dlookup (I.update_regret a x).regret_sum q =
      if q = a then some (dgetD I.regret_sum a 0 + x) else dlookup I.regret_sum q := by
  simp only [InfoSet.update_regret, ddgetInsert]
  cases h : dlookup I.regret_sum a with
  | some v =>
      dsimp only
      rw [dlookup_dset]
      simp [dgetD, h]
  | none =>
      dsimp only
      rw [dlookup_dset]
      rcases eq_or_ne q a with rfl | hqa
      · simp [dgetD, h]
      · rw [if_neg hqa, if_neg hqa]
        exact dlookup_append_single_ne a 0 q hqa I.regret_sum

/-- Two-sided congruence for a fold over a list when the step functions agree
on the list members. -/
theorem foldl_congr_mem {α β : Type} (f g : β → α → β) :
    ∀ (l : List α), (∀ b a, a ∈ l → f b a = g b a) → ∀ i : β,
      l.foldl f i = l.foldl g i := by
  intro l
  induction l with
  | nil => intro _ _; rfl
  | cons a rest ih =>
      intro h i
      simp only [List.foldl_cons]
      rw [h i a (List.mem_cons_self a rest)]
      exact ih (fun b y hy => h b y (List.mem_cons_of_mem a hy)) _

/-- `get_strategy` reads the cumulative regrets only at the listed actions:
two accumulators equal except for their regret maps, and whose regret reads
agree on every listed action, produce the same distribution and the same
updated state up to carrying their own regret map. -/
theorem get_strategy_congr (J₂ J₁ : InfoSet K) (w : K)
    (hkey : J₂.key = J₁.key) (hact : J₂.actions = J₁.actions)
    (hplayer : J₂.player = J₁.player) (hnum : J₂.num_actions = J₁.num_actions)
    (hss : J₂.strategy_sum = J₁.strategy_sum)
    (hreach : J₂.reach_probability_sum = J₁.reach_probability_sum)
    (hr : ∀ a ∈ J₁.actions, dgetD J₂.regret_sum a 0 = dgetD J₁.regret_sum a 0) :
    J₂.get_strategy w =
      (J₁.get_strategy w).map
        (fun r => (r.1, { r.2 with regret_sum := J₂.regret_sum })) := by
  obtain ⟨k₂, L₂, p₂, n₂, R₂, S₂, c₂⟩ := J₂
  obtain ⟨k₁, L₁, p₁, n₁, R₁, S₁, c₁⟩ := J₁
  dsimp only at hkey hact hplayer hnum hss hreach hr ⊢
  subst hkey hact hplayer hnum hss hreach
  have hmax : ∀ a ∈ L₂, max 0 (dgetD R₂ a 0) = max 0 (dgetD R₁ a 0) :=
    fun a ha => by rw [hr a ha]
  have hsum : (L₂.map (fun a => max 0 (dgetD R₂ a 0))).sum =
      (L₂.map (fun a => max 0 (dgetD R₁ a 0))).sum := by
    rw [List.map_congr_left hmax]
  have hm1 : L₂.foldl (fun s a => dset s a (max 0 (dgetD R₂ a 0))) [] =
      L₂.foldl (fun s a => dset s a (max 0 (dgetD R₁ a 0))) [] :=
    foldl_congr_mem _ _ L₂ (fun b a ha => by rw [hmax a ha]) []
  by_cases hns : 0 < (L₂.map (fun a => max 0 (dgetD R₁ a 0))).sum
  · rw [get_strategy_eq_pos ⟨k₂, L₂, p₂, n₂, R₂, S₂, c₂⟩ w
      (by exact hns.trans_eq hsum.symm)]
    rw [get_strategy_eq_pos ⟨k₂, L₂, p₂, n₂, R₁, S₂, c₂⟩ w (by exact hns)]
    dsimp only
    rw [hm1, hsum]
    simp only [Option.map_some']
  · by_cases hn0 : ((n₂ : K)) = 0
    · rw [get_strategy_eq_none ⟨k₂, L₂, p₂, n₂, R₂, S₂, c₂⟩ w
        (by dsimp only; rw [hsum]; exact hns) (by exact hn0)]
      rw [get_strategy_eq_none ⟨k₂, L₂, p₂, n₂, R₁, S₂, c₂⟩ w (by exact hns) (by exact hn0)]
      rfl
    · rw [get_strategy_eq_unif ⟨k₂, L₂, p₂, n₂, R₂, S₂, c₂⟩ w
        (by dsimp only; rw [hsum]; exact hns) (by exact hn0)]
      rw [get_strategy_eq_unif ⟨k₂, L₂, p₂, n₂, R₁, S₂, c₂⟩ w (by exact hns) (by exact hn0)]
      dsimp only
      rw [hm1]
      simp only [Option.map_some']

/-- C10: `update_regret` with an action outside the fixed action list
silently inserts a regret entry for it (`defaultdict` semantics), but
`get_strategy` and `get_average_strategy` iterate only over the action list
captured at creation, so their outputs — and all state they update — are
unchanged apart from the regret map carrying the stray entry. -/
theorem claim_C10_update_regret_unlisted_action (I : InfoSet K) (a : Action)
    (x w : K) (ha : a ∉ I.actions) :
    dmem (I.update_regret a x).regret_sum a = true ∧
    dgetD (I.update_regret a x).regret_sum a 0 = dgetD I.regret_sum a 0 + x ∧
    (I.update_regret a x).get_strategy w =
      (I.get_strategy w).map
        (fun r => (r.1, { r.2 with regret_sum := (I.update_regret a x).regret_sum })) ∧
    (I.update_regret a x).get_average_strategy = I.get_average_strategy := by
  refine ⟨?_, ?_, ?_, rfl⟩
  · simp [dmem, dlookup_update_regret]
  · simp [dgetD, dlookup_update_regret]
  · refine get_strategy_congr _ _ w rfl rfl rfl rfl rfl rfl ?_
    intro b hb
    have hba : b ≠ a := fun h => ha (h ▸ hb)
    simp [dgetD, dlookup_update_regret, hba]

/-- Witness for C10: a stray action `actB` updated on a one-action
accumulator over `[actA]`. -/
theorem claim_C10_witness :
    dmem ((mkInfoSet (K := ℚ) oneNodeKey [actA] 0).update_regret actB 1).regret_sum
      actB = true ∧
    dgetD ((mkInfoSet (K := ℚ) oneNodeKey [actA] 0).update_regret actB 1).regret_sum
      actB 0 =
      dgetD (mkInfoSet (K := ℚ) oneNodeKey [actA] 0).regret_sum actB 0 + 1 ∧
    ((mkInfoSet (K := ℚ) oneNodeKey [actA] 0).update_regret actB 1).get_strategy 1 =
      ((mkInfoSet (K := ℚ) oneNodeKey [actA] 0).get_strategy 1).map
        (fun r => (r.1, { r.2 with regret_sum :=
          ((mkInfoSet (K := ℚ) oneNodeKey [actA] 0).update_regret actB 1).regret_sum })) ∧
    ((mkInfoSet (K := ℚ) oneNodeKey [actA] 0).update_regret actB 1).get_average_strategy =
      (mkInfoSet (K := ℚ) oneNodeKey [actA] 0).get_average_strategy :=
  claim_C10_update_regret_unlisted_action (mkInfoSet oneNodeKey [actA] 0) actB 1 1
    (by decide)

/-- C2 (amended): `CFRTrainer.get_infoset` performs no chance/terminal check
and raises nothing itself, for any state whatsoever: it returns the stored
accumulator for the state's key unchanged, or creates and stores one built
from whatever player and actions the game reports for that state.  No
hypothesis about `is_terminal` or `get_current_player` appears — the
behavior is the same on chance and terminal states. -/
theorem claim_C2_get_infoset_never_fails {S : Type} (G : Game S K)
    (T : CFRTrainer K) (state : S) :
    (∀ I₀, dlookup T.infosets (G.get_infoset_key state) = some I₀ →
      CFRTrainer.get_infoset G T state = (I₀, T)) ∧
    (dlookup T.infosets (G.get_infoset_key state) = none →
      CFRTrainer.get_infoset G T state =
        (mkInfoSet (G.get_infoset_key state) (G.get_actions state)
          (G.get_current_player state),
         { T with infosets := (dset T.infosets (G.get_infoset_key state)
             (mkInfoSet (G.get_infoset_key state) (G.get_actions state)
               (G.get_current_player state))) })) := by
  constructor
  · intro I₀ h
    simp [CFRTrainer.get_infoset, h]
  · intro h
    simp [CFRTrainer.get_infoset, h]

/-- Counterexample to C2 as stated: state `1` of `demoGame` is terminal, yet
`get_infoset` does not fail — it creates an accumulator from the terminal
state's reported key, (empty) action list and sentinel player `-1`, and
stores it in the table. -/
theorem claim_C2_counterexample :
    (demoGame (K := ℚ)).is_terminal 1 = true ∧
    CFRTrainer.get_infoset (demoGame (K := ℚ)) (mkCFRTrainer 2 oddVariant) 1 =
      (mkInfoSet oneNodeKey [] (-1),
       { mkCFRTrainer (K := ℚ) 2 oddVariant with
         infosets := [(oneNodeKey, mkInfoSet oneNodeKey [] (-1))] }) := by
  constructor
  · rfl
  · with_unfolding_all rfl

/-- Witness for C2 (amended) on the creating branch at the decision state of
`demoGame`. -/
theorem claim_C2_witness :
    CFRTrainer.get_infoset (demoGame (K := ℚ)) (mkCFRTrainer 2 oddVariant) 0 =
      (mkInfoSet ((demoGame (K := ℚ)).get_infoset_key 0)
        ((demoGame (K := ℚ)).get_actions 0) ((demoGame (K := ℚ)).get_current_player 0),
       { mkCFRTrainer (K := ℚ) 2 oddVariant with
         infosets := (dset (mkCFRTrainer (K := ℚ) 2 oddVariant).infosets
           ((demoGame (K := ℚ)).get_infoset_key 0)
           (mkInfoSet ((demoGame (K := ℚ)).get_infoset_key 0)
             ((demoGame (K := ℚ)).get_actions 0)
             ((demoGame (K := ℚ)).get_current_player 0))) }) :=
  (claim_C2_get_infoset_never_fails (demoGame (K := ℚ))
    (mkCFRTrainer 2 oddVariant) 0).2 rfl

/-- Pointwise effect of `discount_regrets` on the listed actions of a
duplicate-free action list: positive regrets are scaled by `pos_discount`,
the rest by `neg_discount`; other fields are untouched by construction. -/
theorem discount_regrets_getD (I : InfoSet K) (pos neg : K)
    (hnd : I.actions.Nodup) :
    ∀ a ∈ I.actions, dgetD (I.discount_regrets pos neg).regret_sum a 0 =
      if 0 < dgetD I.regret_sum a 0 then dgetD I.regret_sum a 0 * pos
      else dgetD I.regret_sum a 0 * neg := by
  have h := foldl_step_pointwise
    (fun m a =>
      if 0 < dgetD m a 0 then dset m a (dgetD m a 0 * pos)
      else dset m a (dgetD m a 0 * neg))
    (fun a v => if 0 < v then v * pos else v * neg) 0
    (fun m k => by
      dsimp only
      by_cases hv : 0 < dgetD m k 0
      · rw [if_pos hv, if_pos hv, dgetD_dset_self]
      · rw [if_neg hv, if_neg hv, dgetD_dset_self])
    (fun m k q hq => by
      dsimp only
      by_cases hv : 0 < dgetD m k 0
      · rw [if_pos hv, dgetD_dset_ne _ _ _ _ _ hq]
      · rw [if_neg hv, dgetD_dset_ne _ _ _ _ _ hq])
    I.actions hnd I.regret_sum
  exact h.1

/-- Pointwise effect of `discount_strategy` on the listed actions of a
duplicate-free action list: every cumulative strategy weight is scaled by
`discount`. -/
theorem discount_strategy_getD (I : InfoSet K) (discount : K)
    (hnd : I.actions.Nodup) :
    ∀ a ∈ I.actions, dgetD (I.discount_strategy discount).strategy_sum a 0 =
      dgetD I.strategy_sum a 0 * discount := by
  have h := foldl_step_pointwise
    (fun m a => dset m a (dgetD m a 0 * discount))
    (fun a v => v * discount) 0
    (fun m k => dgetD_dset_self m k _ 0)
    (fun m k q hq => dgetD_dset_ne m k _ 0 q hq)
    I.actions hnd I.strategy_sum
  exact h.1

/-- C6: the discounted (DCFR) post-iteration update with the default
parameters `α = 1.5`, `β = 0`, `γ = 2` at 1-based iteration `t` multiplies
every non-positive cumulative regret by exactly `1/2` (`t^0 = 1` makes
`neg = t^β/(t^β+1) = 1/2` for every `t`), every positive cumulative regret
by `t^1.5/(t^1.5+1)`, and every cumulative strategy weight by `(t/(t+1))^2`;
Python float `**` is taken as real exponentiation. -/
theorem claim_C6_dcfr_default_discounts (T : CFRTrainer ℝ) (t : ℕ)
    (hvar : T.variant = "dcfr") (hα : T.alpha = 1.5) (hβ : T.beta = 0)
    (hγ : T.gamma = 2) (hiter : T.iteration = t) (ht : 1 ≤ t)
    (key : String) (I : InfoSet ℝ) (hmem : (key, I) ∈ T.infosets)
    (hnd : I.actions.Nodup) :
    ∃ I', (key, I') ∈ (T.apply_post_iteration_updates (fun x y : ℝ => x ^ y)).infosets ∧
      (∀ a ∈ I.actions, dgetD I.regret_sum a 0 ≤ 0 →
        dgetD I'.regret_sum a 0 = (1 / 2) * dgetD I.regret_sum a 0) ∧
      (∀ a ∈ I.actions, 0 < dgetD I.regret_sum a 0 →
        dgetD I'.regret_sum a 0 =
          ((t : ℝ) ^ (1.5 : ℝ) / ((t : ℝ) ^ (1.5 : ℝ) + 1)) * dgetD I.regret_sum a 0) ∧
      (∀ a ∈ I.actions,
        dgetD I'.strategy_sum a 0 =
          ((t : ℝ) / ((t : ℝ) + 1)) ^ 2 * dgetD I.strategy_sum a 0) ∧
      I'.reach_probability_sum =
        ((t : ℝ) / ((t : ℝ) + 1)) ^ 2 * I.reach_probability_sum := by
  have hneg : (t : ℝ) ^ (0 : ℝ) / ((t : ℝ) ^ (0 : ℝ) + 1) = 1 / 2 := by
    rw [Real.rpow_zero]
    norm_num
  have hupd : (T.apply_post_iteration_updates (fun x y : ℝ => x ^ y)).infosets =
      T.infosets.map (fun kv => (kv.1,
        (kv.2.discount_regrets
          ((t : ℝ) ^ (1.5 : ℝ) / ((t : ℝ) ^ (1.5 : ℝ) + 1))
          ((t : ℝ) ^ (0 : ℝ) / ((t : ℝ) ^ (0 : ℝ) + 1))).discount_strategy
          (((t : ℝ) / ((t : ℝ) + 1)) ^ (2 : ℝ)))) := by
    simp only [CFRTrainer.apply_post_iteration_updates, hvar, hα, hβ, hγ, hiter]
    rw [if_neg (show ¬("dcfr" : String) = "cfr_plus" by decide),
      if_neg (show ¬("dcfr" : String) = "lcfr" by decide)]
    simp only [if_true]
  refine ⟨(I.discount_regrets ((t : ℝ) ^ (1.5 : ℝ) / ((t : ℝ) ^ (1.5 : ℝ) + 1))
      ((t : ℝ) ^ (0 : ℝ) / ((t : ℝ) ^ (0 : ℝ) + 1))).discount_strategy
      (((t : ℝ) / ((t : ℝ) + 1)) ^ (2 : ℝ)), ?_, ?_, ?_, ?_, ?_⟩
  · rw [hupd]
    exact List.mem_map_of_mem _ hmem
  · intro a ha hle
    have h := discount_regrets_getD I
      ((t : ℝ) ^ (1.5 : ℝ) / ((t : ℝ) ^ (1.5 : ℝ) + 1))
      ((t : ℝ) ^ (0 : ℝ) / ((t : ℝ) ^ (0 : ℝ) + 1)) hnd a ha
    rw [show ((I.discount_regrets ((t : ℝ) ^ (1.5 : ℝ) / ((t : ℝ) ^ (1.5 : ℝ) + 1))
        ((t : ℝ) ^ (0 : ℝ) / ((t : ℝ) ^ (0 : ℝ) + 1))).discount_strategy
        (((t : ℝ) / ((t : ℝ) + 1)) ^ (2 : ℝ))).regret_sum =
        (I.discount_regrets ((t : ℝ) ^ (1.5 : ℝ) / ((t : ℝ) ^ (1.5 : ℝ) + 1))
        ((t : ℝ) ^ (0 : ℝ) / ((t : ℝ) ^ (0 : ℝ) + 1))).regret_sum from rfl,
      h, if_neg (not_lt.mpr hle), hneg, mul_comm]
  · intro a ha hpos
    have h := discount_regrets_getD I
      ((t : ℝ) ^ (1.5 : ℝ) / ((t : ℝ) ^ (1.5 : ℝ) + 1))
      ((t : ℝ) ^ (0 : ℝ) / ((t : ℝ) ^ (0 : ℝ) + 1)) hnd a ha
    rw [show ((I.discount_regrets ((t : ℝ) ^ (1.5 : ℝ) / ((t : ℝ) ^ (1.5 : ℝ) + 1))
        ((t : ℝ) ^ (0 : ℝ) / ((t : ℝ) ^ (0 : ℝ) + 1))).discount_strategy
        (((t : ℝ) / ((t : ℝ) + 1)) ^ (2 : ℝ))).regret_sum =
        (I.discount_regrets ((t : ℝ) ^ (1.5 : ℝ) / ((t : ℝ) ^ (1.5 : ℝ) + 1))
        ((t : ℝ) ^ (0 : ℝ) / ((t : ℝ) ^ (0 : ℝ) + 1))).regret_sum from rfl,
      h, if_pos hpos, mul_comm]
  · intro a ha
    have h := discount_strategy_getD
      (I.discount_regrets ((t : ℝ) ^ (1.5 : ℝ) / ((t : ℝ) ^ (1.5 : ℝ) + 1))
        ((t : ℝ) ^ (0 : ℝ) / ((t : ℝ) ^ (0 : ℝ) + 1)))
      (((t : ℝ) / ((t : ℝ) + 1)) ^ (2 : ℝ)) hnd a ha
    rw [h, mul_comm, Real.rpow_two]
    rfl
  · rw [show ((I.discount_regrets ((t : ℝ) ^ (1.5 : ℝ) / ((t : ℝ) ^ (1.5 : ℝ) + 1))
        ((t : ℝ) ^ (0 : ℝ) / ((t : ℝ) ^ (0 : ℝ) + 1))).discount_strategy
        (((t : ℝ) / ((t : ℝ) + 1)) ^ (2 : ℝ))).reach_probability_sum =
        I.reach_probability_sum * (((t : ℝ) / ((t : ℝ) + 1)) ^ (2 : ℝ)) from rfl,
      mul_comm, Real.rpow_two]

/-- Witness for C6 at iteration 1 on a one-accumulator trainer. -/
theorem claim_C6_witness :
    ∃ I', (oneNodeKey, I') ∈
        (dcfrTrainer.apply_post_iteration_updates (fun x y : ℝ => x ^ y)).infosets ∧
      (∀ a ∈ (mkInfoSet (K := ℝ) oneNodeKey [actA] 0).actions,
        dgetD (mkInfoSet (K := ℝ) oneNodeKey [actA] 0).regret_sum a 0 ≤ 0 →
        dgetD I'.regret_sum a 0 =
          (1 / 2) * dgetD (mkInfoSet (K := ℝ) oneNodeKey [actA] 0).regret_sum a 0) ∧
      (∀ a ∈ (mkInfoSet (K := ℝ) oneNodeKey [actA] 0).actions,
        0 < dgetD (mkInfoSet (K := ℝ) oneNodeKey [actA] 0).regret_sum a 0 →
        dgetD I'.regret_sum a 0 =
          (((1 : ℕ) : ℝ) ^ (1.5 : ℝ) / (((1 : ℕ) : ℝ) ^ (1.5 : ℝ) + 1)) *
            dgetD (mkInfoSet (K := ℝ) oneNodeKey [actA] 0).regret_sum a 0) ∧
      (∀ a ∈ (mkInfoSet (K := ℝ) oneNodeKey [actA] 0).actions,
        dgetD I'.strategy_sum a 0 =
          (((1 : ℕ) : ℝ) / (((1 : ℕ) : ℝ) + 1)) ^ 2 *
            dgetD (mkInfoSet (K := ℝ) oneNodeKey [actA] 0).strategy_sum a 0) ∧
      I'.reach_probability_sum =
        (((1 : ℕ) : ℝ) / (((1 : ℕ) : ℝ) + 1)) ^ 2 *
          (mkInfoSet (K := ℝ) oneNodeKey [actA] 0).reach_probability_sum :=
  claim_C6_dcfr_default_discounts dcfrTrainer 1 rfl rfl rfl rfl rfl (le_refl 1)
    oneNodeKey (mkInfoSet oneNodeKey [actA] 0) (List.mem_singleton.mpr rfl) (by decide)

/-- One unfolding of the training loop at a positive remaining count
(restating the `remaining + 1` equation of `train_loop`). -/
theorem train_loop_succ {S : Type} (G : Game S ℚ) (rpow : ℚ → ℚ → ℚ) (fuel : ℕ)
    (root : S) (iters : ℕ) (eps : ℚ) (ci : ℕ) (remaining i : ℕ) (T : CFRTrainer ℚ) :
    CFRTrainer.train_loop G rpow fuel root iters eps ci (remaining + 1) i T = (do
      let T₁ ← CFRTrainer.run_iteration G rpow fuel T root
      let m ← pymod (i + 1) ci
      if 0 < i ∧ m = 0 ∧ 0 < T₁.prev_strategies.length then do
        let chT ← T₁.calculate_strategy_change
        let total_change := (chT.1.map (fun pc => pc.2)).sum
        if total_change < eps then some (i, chT.2)
        else CFRTrainer.train_loop G rpow fuel root iters eps ci remaining (i + 1) chT.2
      else do
        let T₂ ← if m = 0 then T₁.snapshot_strategies else pure T₁
        CFRTrainer.train_loop G rpow fuel root iters eps ci remaining (i + 1) T₂) := rfl

/-- The first `tinyGame` iteration: the accumulator is created, receives a
uniform (single-action) strategy and zero regrets. -/
theorem tiny_step1 : CFRTrainer.run_iteration tinyGame rp0 3 tinyT0 0 = some tinyT1 := by
  with_unfolding_all decide

/-- The snapshot at loop index 0 stores the average strategy baseline. -/
theorem tiny_step2 : tinyT1.snapshot_strategies = some tinyT2 := by
  with_unfolding_all decide

/-- The second `tinyGame` iteration doubles the cumulative strategy weight
and bumps the iteration counter to 2. -/
theorem tiny_step3 : CFRTrainer.run_iteration tinyGame rp0 3 tinyT2 0 = some tinyT3 := by
  with_unfolding_all decide

/-- The convergence check at loop index 1 sees an unchanged average strategy:
total change 0 for the only player. -/
theorem tiny_step4 :
    tinyT3.calculate_strategy_change = some ([((0 : Int), (0 : ℚ))], tinyT3) := by
  with_unfolding_all decide

/-- C1: `train` on `tinyGame` with `max_iterations = 5`, `epsilon = 1/10000`
and `check_interval = 1` stops at the convergence check of the second
iteration — the trainer's own `iteration` counter stands at 2 (and the
source prints "Converged at iteration 2") — yet returns the 0-based loop
index 1 (`return i`, cfr_trainer.py line 130), not the number of iterations
actually executed.  Both spec claims "returns the number of iterations
actually executed" and "returns the 1-based iteration count t at which the
convergence total first fell below epsilon" are off by one on the early-stop
path; the intended value is `i + 1`. -/
theorem claim_C1_train_returns_loop_index_not_count :
    (CFRTrainer.train tinyGame rp0 3 tinyT0 0 5 (1 / 10000) 1).map
      (fun p => (p.1, p.2.iteration)) = some (1, 2) := by
  rw [CFRTrainer.train, show (5 : ℕ) = 4 + 1 from rfl, train_loop_succ, tiny_step1]
  simp only [Option.some_bind, pymod, tinyT1]
  norm_num
  rw [tiny_step2]
  simp only [Option.some_bind]
  rw [show (4 : ℕ) = 3 + 1 from rfl, train_loop_succ, tiny_step3]
  simp only [Option.some_bind, pymod, tinyT2, tinyT3]
  norm_num
  rw [tiny_step4]
  simp only [Option.some_bind, List.map_cons, List.map_nil, List.sum_cons, List.sum_nil]
  norm_num [tinyT3]

/-- An in-bounds optional list read is the defaulted read. -/
theorem get?_eq_some_getD {β : Type} :
    ∀ (l : List β) (n : ℕ) (d : β), n < l.length → l.get? n = some (l.getD n d) := by
  intro l
  induction l with
  | nil => intro n d h; exact absurd h (by simp)
  | cons x rest ih =>
      intro n d h
      cases n with
      | zero => rfl
      | succ m => exact ih m d (by simpa using h)

/-- `pyIdx` at an in-bounds natural index reads the list entry. -/
theorem pyIdx_natCast {β : Type} (l : List β) (p : ℕ) (d : β) (h : p < l.length) :
    pyIdx l (p : Int) = some (l.getD p d) := by
  simp only [pyIdx, Int.toNat_natCast]
  rw [if_pos (Int.natCast_nonneg p)]
  exact get?_eq_some_getD l p d h

/-- The counterfactual-reach loop over in-bounds player indices computes the
product of the reach probabilities of every player other than the actor. -/
theorem cfrReachLoop_spec (cp : Int) (reach : List K) :
    ∀ (l : List ℕ), (∀ q ∈ l, q < reach.length) → ∀ acc : K,
      cfrReachLoop cp reach l acc =
        some (acc * (l.map (fun q : ℕ =>
          if (q : Int) = cp then (1 : K) else reach.getD q 0)).prod) := by
  intro l
  induction l with
  | nil => intro _ acc; simp [cfrReachLoop]
  | cons p rest ih =>
      intro hlt acc
      by_cases hp : (p : Int) = cp
      · rw [cfrReachLoop, if_pos hp, ih (fun q hq => hlt q (List.mem_cons_of_mem _ hq)) acc]
        simp [hp]
      · have hpy : pyIdx reach (p : Int) = some (reach.getD p 0) :=
          pyIdx_natCast reach p 0 (hlt p (List.mem_cons_self _ _))
        have hstep : cfrReachLoop cp reach (p :: rest) acc =
            cfrReachLoop cp reach rest (acc * reach.getD p 0) := by
          rw [cfrReachLoop, if_neg hp, hpy]
          rfl
        rw [hstep, ih (fun q hq => hlt q (List.mem_cons_of_mem _ hq)) (acc * reach.getD p 0)]
        simp [hp, mul_assoc]

/-- Defaulted-read form of `dlookup_update_regret`. -/
theorem dgetD_update_regret (J : InfoSet K) (a : Action) (r : K) (q : Action) :
    dgetD (J.update_regret a r).regret_sum q 0 =
      if q = a then dgetD J.regret_sum a 0 + r else dgetD J.regret_sum q 0 := by
  rcases eq_or_ne q a with rfl | h
  · simp [dgetD, dlookup_update_regret]
  · simp [dgetD, dlookup_update_regret, h]

/-- The regret-update loop over a duplicate-free action list adds
`cfr_reach * (action_value - expected_value)` to each listed action\'s
cumulative regret, touches no other regret entry, and leaves every other
field of the accumulator unchanged. -/
theorem regretLoop_spec (cr ev : K) (avs : List (Action × K)) :
    ∀ (l : List Action), l.Nodup → ∀ J : InfoSet K,
      ((regretLoop l J cr ev avs).key = J.key ∧
       (regretLoop l J cr ev avs).actions = J.actions ∧
       (regretLoop l J cr ev avs).player = J.player ∧
       (regretLoop l J cr ev avs).num_actions = J.num_actions ∧
       (regretLoop l J cr ev avs).strategy_sum = J.strategy_sum ∧
       (regretLoop l J cr ev avs).reach_probability_sum = J.reach_probability_sum) ∧
      (∀ a ∈ l, dgetD (regretLoop l J cr ev avs).regret_sum a 0 =
        dgetD J.regret_sum a 0 + cr * (dgetD avs a 0 - ev)) ∧
      (∀ q, q ∉ l → dgetD (regretLoop l J cr ev avs).regret_sum q 0 =
        dgetD J.regret_sum q 0) := by
  intro l
  induction l with
  | nil =>
      intro _ J
      exact ⟨⟨rfl, rfl, rfl, rfl, rfl, rfl⟩, by simp, fun q _ => rfl⟩
  | cons a rest ih =>
      intro hnd J
      obtain ⟨ha, hrest⟩ := List.nodup_cons.mp hnd
      have hstep : regretLoop (a :: rest) J cr ev avs =
          regretLoop rest (J.update_regret a (cr * (dgetD avs a 0 - ev))) cr ev avs := rfl
      obtain ⟨hfields, hmem, hnot⟩ := ih hrest (J.update_regret a (cr * (dgetD avs a 0 - ev)))
      rw [hstep]
      refine ⟨⟨?_, ?_, ?_, ?_, ?_, ?_⟩, ?_, ?_⟩
      · exact hfields.1
      · exact hfields.2.1
      · exact hfields.2.2.1
      · exact hfields.2.2.2.1
      · exact hfields.2.2.2.2.1
      · exact hfields.2.2.2.2.2
      · intro b hb
        rcases List.mem_cons.mp hb with rfl | hb'
        · rw [hnot b ha, dgetD_update_regret, if_pos rfl]
        · rw [hmem b hb', dgetD_update_regret,
            if_neg (by rintro rfl; exact ha hb')]
      · intro q hq
        rw [hnot q (fun hh => hq (List.mem_cons_of_mem _ hh)), dgetD_update_regret,
          if_neg (by rintro rfl; exact hq (List.mem_cons_self _ _))]

/-- The per-action loop over a duplicate-free action list returns: an
action-value dict whose entry for each listed action is the value of the
recursive call made for it (other keys untouched), and the strategy-weighted
sum of those action values as the expected value. -/
theorem actionLoop_spec {S : Type} (G : Game S K)
    (recur : CFRTrainer K → S → List K → Option (K × CFRTrainer K))
    (state : S) (strategy : List (Action × K)) (reach_probs : List K) (cp : Int) :
    ∀ (l : List Action), l.Nodup →
      ∀ (avs₀ : List (Action × K)) (ev₀ : K) (T₀ : CFRTrainer K)
        (out : List (Action × K) × K × CFRTrainer K),
        actionLoop G recur state strategy reach_probs cp l (avs₀, ev₀, T₀) = some out →
        (∀ q, q ∉ l → dgetD out.1 q 0 = dgetD avs₀ q 0) ∧
        out.2.1 = ev₀ + (l.map (fun a => dgetD strategy a 0 * dgetD out.1 a 0)).sum ∧
        (∀ a ∈ l, ∃ rv nr ns Tin Tout,
          pyIdx reach_probs cp = some rv ∧
          pySetIdx reach_probs cp (rv * dgetD strategy a 0) = some nr ∧
          G.take_action state a = some ns ∧
          recur Tin ns nr = some (dgetD out.1 a 0, Tout)) := by
  intro l
  induction l with
  | nil =>
      intro _ avs₀ ev₀ T₀ out h
      rw [actionLoop] at h
      have heq := Option.some.inj h
      subst heq
      exact ⟨fun q _ => rfl, by simp, fun a hh => absurd hh (List.not_mem_nil a)⟩
  | cons a rest ih =>
      intro hnd avs₀ ev₀ T₀ out h
      obtain ⟨ha, hrest⟩ := List.nodup_cons.mp hnd
      rw [actionLoop] at h
      try dsimp only at h
      rw [Option.bind_eq_bind'] at h
      obtain ⟨rv, hrv, h⟩ := Option.bind_eq_some.mp h
      try dsimp only at h
      rw [Option.bind_eq_bind'] at h
      obtain ⟨nr, hnr, h⟩ := Option.bind_eq_some.mp h
      try dsimp only at h
      rw [Option.bind_eq_bind'] at h
      obtain ⟨ns, hts, h⟩ := Option.bind_eq_some.mp h
      try dsimp only at h
      rw [Option.bind_eq_bind'] at h
      obtain ⟨avT, hrec, h⟩ := Option.bind_eq_some.mp h
      try dsimp only at h
      obtain ⟨huntouched, hev, hrec_all⟩ := ih hrest _ _ _ out h
      have hout1a : dgetD out.1 a 0 = avT.1 := by
        rw [huntouched a ha, dgetD_dset_self]
      refine ⟨?_, ?_, ?_⟩
      · intro q hq
        rw [huntouched q (fun hh => hq (List.mem_cons_of_mem _ hh)),
          dgetD_dset_ne _ _ _ _ _ (by rintro rfl; exact hq (List.mem_cons_self _ _))]
      · rw [List.map_cons, List.sum_cons, hout1a, hev]
        ring
      · intro b hb
        rcases List.mem_cons.mp hb with rfl | hb'
        · refine ⟨rv, nr, ns, T₀, avT.2, hrv, hnr, hts, ?_⟩
          rw [hout1a]
          simpa using hrec
        · exact hrec_all b hb'

/-- C4: one `_cfr` node.  At a chance node the result is the
probability-weighted fold of recursive calls with `reach_probs` unchanged and
no regret write.  At a decision node, given the loop outputs `out`
(action values, expected value, threaded trainer): if the actor is not the
updating player the trainer is returned as the loop left it — no regret is
added; if the actor is the updating player, the stored accumulator at the
state\'s key receives, for every legal action,
`counterfactual_reach * (action_value - expected_value)` added to its
cumulative regret, where `counterfactual_reach` is the product of
`reach_probs[q]` over players `q ≠ actor` in `range(num_players)`,
`expected_value` is the strategy-weighted sum of the action values, and each
action value is the value of the recursive call for that action. -/
theorem claim_C4_cfr_node_semantics {S : Type} (G : Game S K) (fuel : ℕ) (T : CFRTrainer K)
    (state : S) (reach : List K) (up : Int) :
    (G.is_terminal state = false → G.get_current_player state = -1 →
      CFRTrainer.cfr G (fuel + 1) T state reach up =
        chanceLoop G (fun T' s' => CFRTrainer.cfr G fuel T' s' reach up) state
          (G.get_chance_probabilities state) (0, T)) ∧
    (∀ (cp : Int) (I T₀ : _) (rv : K) (st : List (Action × K)) (I₁ : InfoSet K)
      (out : List (Action × K) × K × CFRTrainer K),
      G.is_terminal state = false → G.get_current_player state = cp → cp ≠ -1 →
      CFRTrainer.get_infoset G T state = (I, T₀) →
      pyIdx reach cp = some rv →
      I.get_strategy rv = some (st, I₁) →
      actionLoop G (fun T' s' r' => CFRTrainer.cfr G fuel T' s' r' up) state st reach cp
        I.actions
        ([], 0, { T₀ with infosets := dset T₀.infosets (G.get_infoset_key state) I₁ }) =
        some out →
      ((cp ≠ up →
          CFRTrainer.cfr G (fuel + 1) T state reach up = some (out.2.1, out.2.2)) ∧
       (cp = up → I.actions.Nodup → out.2.2.num_players ≤ reach.length →
          (CFRTrainer.cfr G (fuel + 1) T state reach up =
             some (out.2.1, { out.2.2 with infosets := (dset out.2.2.infosets
               (G.get_infoset_key state)
               (regretLoop I.actions
                 ((dlookup out.2.2.infosets (G.get_infoset_key state)).getD I₁)
                 (((List.range out.2.2.num_players).map
                   (fun q : ℕ => if (q : Int) = cp then (1 : K) else reach.getD q 0)).prod)
                 out.2.1 out.1)) }) ∧
           (∀ a ∈ I.actions,
             dgetD (regretLoop I.actions
                 ((dlookup out.2.2.infosets (G.get_infoset_key state)).getD I₁)
                 (((List.range out.2.2.num_players).map
                   (fun q : ℕ => if (q : Int) = cp then (1 : K) else reach.getD q 0)).prod)
                 out.2.1 out.1).regret_sum a 0 =
               dgetD ((dlookup out.2.2.infosets (G.get_infoset_key state)).getD
                   I₁).regret_sum a 0 +
                 (((List.range out.2.2.num_players).map
                   (fun q : ℕ => if (q : Int) = cp then (1 : K) else reach.getD q 0)).prod) *
                   (dgetD out.1 a 0 - out.2.1)) ∧
           out.2.1 = (I.actions.map (fun a => dgetD st a 0 * dgetD out.1 a 0)).sum ∧
           (∀ a ∈ I.actions, ∃ rv' nr ns Tin Tout,
             pyIdx reach cp = some rv' ∧
             pySetIdx reach cp (rv' * dgetD st a 0) = some nr ∧
             G.take_action state a = some ns ∧
             CFRTrainer.cfr G fuel Tin ns nr up = some (dgetD out.1 a 0, Tout)))))) := by
  constructor
  · intro hterm hchance
    show CFRTrainer.cfrStep G (CFRTrainer.cfr G fuel) T state reach up = _
    rw [CFRTrainer.cfrStep, hterm, hchance]
    simp
  · intro cp I T₀ rv st I₁ out hterm hcp hcp1 hget hrv hst hloop
    have hpref : CFRTrainer.cfr G (fuel + 1) T state reach up =
        (if cp = up then
          (do
            let cfr_reach ← cfrReachLoop cp reach (List.range out.2.2.num_players) 1
            some (out.2.1, { out.2.2 with infosets := (dset out.2.2.infosets
              (G.get_infoset_key state)
              (regretLoop I.actions
                ((dlookup out.2.2.infosets (G.get_infoset_key state)).getD I₁)
                cfr_reach out.2.1 out.1)) }))
        else some (out.2.1, out.2.2)) := by
      show CFRTrainer.cfrStep G (CFRTrainer.cfr G fuel) T state reach up = _
      rw [CFRTrainer.cfrStep, hterm]
      simp only [Bool.false_eq_true, if_false]
      rw [hcp, if_neg hcp1, hget]
      dsimp only
      rw [hrv]
      simp only [Option.bind_eq_bind', Option.some_bind]
      rw [hst]
      simp only [Option.bind_eq_bind', Option.some_bind]
      rw [hloop]
      simp only [Option.bind_eq_bind', Option.some_bind]
    refine ⟨?_, ?_⟩
    · intro hne
      rw [hpref, if_neg hne]
    · intro heqp hnd hlen
      obtain ⟨huntouched, hev, hrec_all⟩ :=
        actionLoop_spec G (fun T' s' r' => CFRTrainer.cfr G fuel T' s' r' up)
          state st reach cp I.actions hnd _ _ _ out hloop
      have hcrl := cfrReachLoop_spec cp reach (List.range out.2.2.num_players)
        (fun q hq => lt_of_lt_of_le (List.mem_range.mp hq) hlen) 1
      refine ⟨?_, ?_, ?_, ?_⟩
      · rw [hpref, if_pos heqp, hcrl]
        simp only [Option.bind_eq_bind', Option.some_bind, one_mul]
      · intro a ha
        exact (regretLoop_spec _ _ _ I.actions hnd _).2.1 a ha
      · rw [hev, zero_add]
      · exact hrec_all


/-- Witness for C4: the updating-player case at `demoGame`\'s decision node. -/
theorem claim_C4_witness :
    CFRTrainer.cfr (demoGame (K := ℚ)) (9 + 1) (mkCFRTrainer 2 "vanilla") 0 [1, 1] 0 =
      some (demoOut.2.1, { demoOut.2.2 with infosets := (dset demoOut.2.2.infosets
        ((demoGame (K := ℚ)).get_infoset_key 0)
        (regretLoop demoI.actions
          ((dlookup demoOut.2.2.infosets
            ((demoGame (K := ℚ)).get_infoset_key 0)).getD demoI1)
          (((List.range demoOut.2.2.num_players).map
            (fun q : ℕ => if (q : Int) = (0 : Int) then (1 : ℚ)
              else [(1 : ℚ), 1].getD q 0)).prod)
          demoOut.2.1 demoOut.1)) }) :=
  (((claim_C4_cfr_node_semantics (demoGame (K := ℚ)) 9 (mkCFRTrainer 2 "vanilla")
      0 [1, 1] 0).2
    0 demoI demoT1 1 demoSt demoI1 demoOut
    (by decide) rfl (by decide)
    (by with_unfolding_all decide) (by with_unfolding_all decide)
    (by with_unfolding_all decide) (by with_unfolding_all decide)).2
    rfl (by decide) (by decide)).1

end CFR
